import Mathlib

/-!
Verification of the express-zod-safe middleware factory (src/index.ts).

The development shallowly embeds the repository's single module:
the `isZodType` capability test, the schema normalization performed by
`validate`, the query-field property patch (shadow slot `_query`), and the
request handler produced by `validate`, which loops over the fixed list
`types = ["query", "params", "body"]`, safe-parses each request section,
writes coerced data back on success, aggregates issues on failure, and
either throws a ZodError or calls `next()`.

External collaborators (zod's `strictObject` / `safeParseAsync` result
shape, express's request object) are modelled from their documented
contracts; everything else is translated from the source.
-/

namespace EZS

/-- JavaScript runtime values, as far as the middleware observes them:
`undefined` and `null` are distinct, objects are finite string-keyed
field lists. -/
inductive JSVal where
  | undefined : JSVal
  | null : JSVal
  | boolean : Bool → JSVal
  | number : Int → JSVal
  | str : String → JSVal
  | obj : List (String × JSVal) → JSVal
deriving Repr

/-- Structural validation issue, as produced by the validator library
(field path, message, issue code). -/
structure Issue where
  path : List String
  message : String
  code : String
deriving Repr, DecidableEq

/-- Result shape of the validator library's attempt-parse:
either success with coerced data or failure with a list of issues
(zod: {success: true, data} | {success: false, error: {issues}}). -/
inductive ParseResult where
  | success : JSVal → ParseResult
  | failure : List Issue → ParseResult
deriving Repr

/-- A validator: its asynchronous attempt-parse operation. `Except.error`
models an exception thrown during attempt-parse (a misbehaving validator);
`Except.ok` models a returned structured result. -/
structure Validator where
  safeParseAsync : JSVal → Except String ParseResult

/-- One entry of the caller's schema set: either an opaque validator
object exposing `safeParseAsync` as a function (a zod type), or a plain
mapping from field name to validator. -/
inductive SchemaEntry where
  | zodType : Validator → SchemaEntry
  | fieldMapping : List (String × Validator) → SchemaEntry

/-- The caller's schema set: up to three optional entries
(`{params?, query?, body?}`). -/
structure Schemas where
  params : Option SchemaEntry := none
  query : Option SchemaEntry := none
  body : Option SchemaEntry := none

/-- Embeds `isZodType(schema)`: `!!schema && typeof schema.safeParseAsync
=== "function"`. An absent entry (undefined) is falsy; a plain field
mapping has no `safeParseAsync` function; only an opaque validator object
passes the capability test. -/
def isZodType : Option SchemaEntry → Bool
  | some (SchemaEntry.zodType _) => true
  | _ => false

/-- JavaScript property read `kvs[k]` on an object's field list: the first
binding wins, a missing key reads as `undefined`. -/
def lookupField (kvs : List (String × JSVal)) (k : String) : JSVal :=
  match kvs.find? (fun kv => kv.1 = k) with
  | some kv => kv.2
  | none => JSVal.undefined

/-- The issue the modelled strict-object validator reports when the input
object carries keys not named in the field mapping. -/
def unrecognizedIssue : Issue :=
  { path := [], message := "Unrecognized key(s) in object",
    code := "unrecognized_keys" }

/-- The issue the modelled strict-object validator reports on non-object
input. -/
def invalidTypeIssue : Issue :=
  { path := [], message := "Expected object", code := "invalid_type" }

/-- The input object's keys that are not named in the field mapping. -/
def unknownKeys (fields : List (String × Validator))
    (kvs : List (String × JSVal)) : List String :=
  (kvs.map Prod.fst).filter
    (fun k => (fields.find? (fun f => f.1 = k)).isNone)

/-- The issues contributed by the named fields' validators, each with its
path prefixed by the field name. -/
def fieldIssuesOf (fieldResults : List (String × ParseResult)) :
    List Issue :=
  fieldResults.flatMap (fun fp =>
    match fp.2 with
    | ParseResult.failure iss =>
        iss.map (fun i => { i with path := fp.1 :: i.path })
    | ParseResult.success _ => [])

/-- The coerced object assembled from the named fields' outputs. -/
def strictOutput (fieldResults : List (String × ParseResult)) : JSVal :=
  JSVal.obj (fieldResults.map (fun fp =>
    (fp.1, match fp.2 with
           | ParseResult.success d => d
           | ParseResult.failure _ => JSVal.undefined)))

/-- Combines the unknown-key check with the field results: success with
the coerced object exactly when no issue was collected. -/
def strictFinish (unknown : List String)
    (fieldResults : List (String × ParseResult)) : ParseResult :=
  if ((if unknown.isEmpty then ([] : List Issue) else [unrecognizedIssue])
      ++ fieldIssuesOf fieldResults).isEmpty then
    ParseResult.success (strictOutput fieldResults)
  else
    ParseResult.failure
      ((if unknown.isEmpty then ([] : List Issue) else [unrecognizedIssue])
        ++ fieldIssuesOf fieldResults)

/-- Modelled from the spec: zod's strict-object attempt-parse (the
validator library is an external collaborator, not repository code).
Non-object input fails with an invalid-type issue. Object input collects
an unrecognized-keys issue when any key is not named in the mapping, runs
every named field's validator on the corresponding field value (missing
fields read as undefined), prefixes each field issue's path with the
field name, and succeeds with the object of coerced field outputs exactly
when no issue was collected. Exceptions thrown by field validators
propagate. -/
def strictObjectSafeParse (fields : List (String × Validator)) (input : JSVal) :
    Except String ParseResult :=
  match input with
  | JSVal.obj kvs =>
    match fields.mapM (fun f =>
        match f.2.safeParseAsync (lookupField kvs f.1) with
        | Except.error e => Except.error e
        | Except.ok pr => Except.ok (f.1, pr)) with
    | Except.error e => Except.error e
    | Except.ok fieldResults =>
        Except.ok (strictFinish (unknownKeys fields kvs) fieldResults)
  | _ =>
    Except.ok (ParseResult.failure [invalidTypeIssue])

/-- The strict-object validator synthesized from a field mapping. -/
def strictObject (fields : List (String × Validator)) : Validator :=
  ⟨strictObjectSafeParse fields⟩

/-- The field mapping denoted by `schemas[type] ?? {}` on the non-zod-type
branch: the entry's mapping, or the empty mapping when the entry is
absent. -/
def entryFields : Option SchemaEntry → List (String × Validator)
  | some (SchemaEntry.fieldMapping fs) => fs
  | _ => []

/-- Embeds one line of the `validation` record construction:
`isZodType(schemas[t]) ? schemas[t] : z.strictObject(schemas[t] ?? {})`. -/
def normalizeEntry : Option SchemaEntry → Validator
  | some (SchemaEntry.zodType v) => v
  | some (SchemaEntry.fieldMapping fs) => strictObject fs
  | none => strictObject []

/-- The normalized validator set held by the produced handler: exactly one
non-optional validator per category. -/
structure Validation where
  params : Validator
  query : Validator
  body : Validator

/-- Embeds the `validation` record built at the top of `validate`. -/
def normalize (s : Schemas) : Validation :=
  { params := normalizeEntry s.params
    query := normalizeEntry s.query
    body := normalizeEntry s.body }

/-- The express request object, as far as the middleware observes it.
`queryShadow` is the `_query` own-property shadow slot installed by the
property patch (`none` means `Object.hasOwn(this, "_query")` is false);
`queryOrig` is the value the original `query` accessor's getter derives
for this request. -/
structure Request where
  params : JSVal
  body : JSVal
  queryShadow : Option JSVal
  queryOrig : JSVal

/-- Embeds the patched `query` getter: if `Object.hasOwn(this, "_query")`
return `this._query`, else return `descriptor?.get?.call(this)` (the
original derivation). -/
def getQuery (r : Request) : JSVal :=
  match r.queryShadow with
  | some v => v
  | none => r.queryOrig

/-- Embeds the patched `query` setter: `this._query = query` (always
writes the shadow slot, whatever the value). -/
def setQuery (r : Request) (v : JSVal) : Request :=
  { r with queryShadow := some v }

/-- The three request sections the middleware validates. -/
inductive Category where
  | query : Category
  | params : Category
  | body : Category
deriving Repr, DecidableEq

/-- Embeds `const types = ["query", "params", "body"]`: the fixed
iteration order of the handler's for-loop. -/
def types : List Category := [Category.query, Category.params, Category.body]

/-- Reads `req[type]`; the `query` read goes through the patched getter. -/
def readField (r : Request) : Category → JSVal
  | Category.query => getQuery r
  | Category.params => r.params
  | Category.body => r.body

/-- Writes `req[type] = v`; the `query` write goes through the patched
setter (writing the shadow slot). -/
def writeField (r : Request) : Category → JSVal → Request
  | Category.query, v => setQuery r v
  | Category.params, v => { r with params := v }
  | Category.body, v => { r with body := v }

/-- Selects `validation[type]`. -/
def getValidator (v : Validation) : Category → Validator
  | Category.query => v.query
  | Category.params => v.params
  | Category.body => v.body

/-- Embeds the nullish coalescing `req[type] ?? {}`: `undefined` and
`null` are replaced by the empty object, every other value passes
through. -/
def nullishDefault (v : JSVal) : JSVal :=
  match v with
  | JSVal.undefined => JSVal.obj []
  | JSVal.null => JSVal.obj []
  | v => v

/-- Embeds the handler's for-loop over `types`, instrumented with a trace
of attempt-parse invocations (category and the input value passed). Each
step awaits `validation[type].safeParseAsync(req[type] ?? {})`; on
success it writes `req[type] = parsed.data`, on failure it appends
`parsed.error.issues` to the running aggregate; an exception aborts the
loop and propagates. Returns the trace together with the loop's outcome
(final request and aggregated issues, or the propagated exception). -/
def processCats (val : Validation) :
    List Category → Request → List Issue →
    List (Category × JSVal) →
    List (Category × JSVal) × Except String (Request × List Issue)
  | [], r, issues, tr => (tr, Except.ok (r, issues))
  | t :: ts, r, issues, tr =>
    let input := nullishDefault (readField r t)
    match (getValidator val t).safeParseAsync input with
    | Except.error e => (tr ++ [(t, input)], Except.error e)
    | Except.ok (ParseResult.success d) =>
        processCats val ts (writeField r t d) issues (tr ++ [(t, input)])
    | Except.ok (ParseResult.failure iss) =>
        processCats val ts r (issues ++ iss) (tr ++ [(t, input)])

/-- The loop's outcome on the full category list. -/
def runCategories (val : Validation) (r : Request) :
    Except String (Request × List Issue) :=
  (processCats val types r [] []).2

/-- The attempt-parse invocations (category, input) the handler performs
on a request, in order. -/
def inputTrace (val : Validation) (r : Request) : List (Category × JSVal) :=
  (processCats val types r [] []).1

/-- The categories whose attempt-parse the handler invokes, in order. -/
def attemptTrace (val : Validation) (r : Request) : List Category :=
  (inputTrace val r).map Prod.fst

/-- Observable outcome of the produced handler when no exception
propagates: either `next()` was called with no arguments, or a ZodError
carrying the aggregated issues was thrown. Both carry the final request
object, whose in-place mutations persist either way. -/
inductive HandlerResult where
  | nextCalled : Request → HandlerResult
  | zodError : Request → List Issue → HandlerResult

/-- Embeds the produced request handler: run the loop, then
`if (issues.length > 0) throw new ZodError(issues); return next()`.
An exception from a validator propagates as `Except.error`. -/
def runHandler (val : Validation) (r : Request) :
    Except String HandlerResult :=
  match runCategories val r with
  | Except.error e => Except.error e
  | Except.ok (r2, issues) =>
    if issues.length > 0 then
      Except.ok (HandlerResult.zodError r2 issues)
    else
      Except.ok (HandlerResult.nextCalled r2)

/-- Embeds `validate(schemas)`: normalize once, return the handler. -/
def validate (s : Schemas) : Request → Except String HandlerResult :=
  runHandler (normalize s)

/-- The structured result of one category's attempt-parse on the request's
original section values (each category's input is untouched by the other
categories' writes). -/
def categoryResult (val : Validation) (r : Request) (t : Category) :
    Except String ParseResult :=
  (getValidator val t).safeParseAsync (nullishDefault (readField r t))

/-- The issues contributed by one category: its failure's issue list, or
empty on success or exception. -/
def categoryIssues (val : Validation) (r : Request) (t : Category) :
    List Issue :=
  match categoryResult val r t with
  | Except.ok (ParseResult.failure iss) => iss
  | _ => []

/-- The exception of the first category (in processing order) whose
attempt-parse throws, if any. -/
def firstThrow (val : Validation) (r : Request) : Option String :=
  match categoryResult val r Category.query with
  | Except.error e => some e
  | _ =>
    match categoryResult val r Category.params with
    | Except.error e => some e
    | _ =>
      match categoryResult val r Category.body with
      | Except.error e => some e
      | _ => none

/-- The aggregate issue list the handler collects, in processing order. -/
def aggIssues (val : Validation) (r : Request) : List Issue :=
  categoryIssues val r Category.query ++ categoryIssues val r Category.params
    ++ categoryIssues val r Category.body

/-- Applies one category's write-back to an accumulating request:
on success the section is overwritten with the coerced data, otherwise
left alone. The parse outcome is read off the original request. -/
def applyCat (val : Validation) (r0 : Request) (t : Category) (r : Request) :
    Request :=
  match categoryResult val r0 t with
  | Except.ok (ParseResult.success d) => writeField r t d
  | _ => r

/-- The request state after the loop completes without an exception. -/
def finalRequest (val : Validation) (r : Request) : Request :=
  applyCat val r Category.body
    (applyCat val r Category.params (applyCat val r Category.query r))

/-- The middleware produced by an empty schema set: every category is
normalized to the strict empty-object validator. -/
def emptyValidation : Validation := normalize {}

/-- A fresh request carrying empty objects everywhere, whose query shadow
slot has never been set. -/
def emptyReq : Request :=
  { params := JSVal.obj [], body := JSVal.obj [],
    queryShadow := none, queryOrig := JSVal.obj [] }

/-- A fresh request whose derived query carries one field unknown to the
empty schema set, so that query validation fails. -/
def failReq : Request :=
  { params := JSVal.obj [], body := JSVal.obj [],
    queryShadow := none,
    queryOrig := JSVal.obj [("foo", JSVal.str "bar")] }

/-- A fresh request whose body field holds the JavaScript value null. -/
def nullBodyReq : Request :=
  { params := JSVal.obj [], body := JSVal.null,
    queryShadow := none, queryOrig := JSVal.obj [] }

/-- A request whose query shadow slot has been set to undefined, while the
original derivation would return a non-empty object. -/
def shadowUndefReq : Request :=
  { params := JSVal.obj [], body := JSVal.obj [],
    queryShadow := some JSVal.undefined,
    queryOrig := JSVal.obj [("a", JSVal.number 1)] }

/-- A misbehaving validator that throws instead of returning a structured
result. -/
def throwingValidator : Validator := ⟨fun _ => Except.error "boom"⟩

/-- A validator set in which every category's attempt-parse throws. -/
def throwingValidation : Validation :=
  { params := throwingValidator, query := throwingValidator,
    body := throwingValidator }

theorem readField_writeField_self (r : Request) (t : Category) (v : JSVal) :
    readField (writeField r t v) t = v := by
  cases t <;> rfl

theorem readField_writeField_of_ne (r : Request) (t t' : Category)
    (v : JSVal) (h : t ≠ t') :
    readField (writeField r t v) t' = readField r t' := by
  cases t <;> cases t' <;> first | rfl | exact absurd rfl h

theorem processCats_nil (val : Validation) (r : Request) (issues : List Issue)
    (tr : List (Category × JSVal)) :
    processCats val [] r issues tr = (tr, Except.ok (r, issues)) := rfl

theorem processCats_cons_error (val : Validation) (t : Category)
    (ts : List Category) (r : Request) (issues : List Issue)
    (tr : List (Category × JSVal)) (e : String)
    (h : (getValidator val t).safeParseAsync (nullishDefault (readField r t))
      = Except.error e) :
    processCats val (t :: ts) r issues tr =
      (tr ++ [(t, nullishDefault (readField r t))], Except.error e) := by
  simp [processCats, h]

theorem processCats_cons_success (val : Validation) (t : Category)
    (ts : List Category) (r : Request) (issues : List Issue)
    (tr : List (Category × JSVal)) (d : JSVal)
    (h : (getValidator val t).safeParseAsync (nullishDefault (readField r t))
      = Except.ok (ParseResult.success d)) :
    processCats val (t :: ts) r issues tr =
      processCats val ts (writeField r t d) issues
        (tr ++ [(t, nullishDefault (readField r t))]) := by
  simp [processCats, h]

theorem processCats_cons_failure (val : Validation) (t : Category)
    (ts : List Category) (r : Request) (issues : List Issue)
    (tr : List (Category × JSVal)) (iss : List Issue)
    (h : (getValidator val t).safeParseAsync (nullishDefault (readField r t))
      = Except.ok (ParseResult.failure iss)) :
    processCats val (t :: ts) r issues tr =
      processCats val ts r (issues ++ iss)
        (tr ++ [(t, nullishDefault (readField r t))]) := by
  simp [processCats, h]

/-- Characterization of the full loop when no validator throws: the trace
records exactly one attempt per category in the order of `types`, each
attempt receives the nullish-defaulted value of the request's own section,
the final request is the original with every successful section
overwritten, and the aggregate is the concatenation of the failing
categories' issue lists in processing order. -/
theorem processCats_run (val : Validation) (r : Request)
    (h : firstThrow val r = none) :
    processCats val types r [] [] =
      ([(Category.query, nullishDefault (readField r Category.query)),
        (Category.params, nullishDefault (readField r Category.params)),
        (Category.body, nullishDefault (readField r Category.body))],
       Except.ok (finalRequest val r, aggIssues val r)) := by
  rcases hcq : val.query.safeParseAsync (nullishDefault (getQuery r)) with e | prq
  · exfalso
    simp [firstThrow, categoryResult, getValidator, readField, hcq] at h
  · rcases hcp : val.params.safeParseAsync (nullishDefault r.params) with e | prp
    · exfalso
      simp [firstThrow, categoryResult, getValidator, readField, hcq, hcp] at h
    · rcases hcb : val.body.safeParseAsync (nullishDefault r.body) with e | prb
      · exfalso
        simp [firstThrow, categoryResult, getValidator, readField, hcq, hcp,
          hcb] at h
      · rcases prq with dq | isq <;> rcases prp with dp | isp <;>
          rcases prb with db | isb <;>
          simp [types, processCats, getValidator, readField, writeField,
            setQuery, finalRequest, applyCat, aggIssues, categoryIssues,
            categoryResult, hcq, hcp, hcb]

/-- Characterization of the loop when some validator throws: the first
exception (in processing order) propagates unmodified as the loop's
outcome, and the trace of attempted categories is a prefix of `types`. -/
theorem processCats_throw (val : Validation) (r : Request) (e : String)
    (h : firstThrow val r = some e) :
    runCategories val r = Except.error e ∧
      ∃ rest, inputTrace val r ++ rest =
        types.map (fun c => (c, nullishDefault (readField r c))) := by
  rcases hcq : val.query.safeParseAsync (nullishDefault (getQuery r)) with e1 | prq
  · have he : e1 = e := by
      simpa [firstThrow, categoryResult, getValidator, readField, hcq] using h
    subst he
    refine ⟨?_,
      [(Category.params, nullishDefault (readField r Category.params)),
       (Category.body, nullishDefault (readField r Category.body))], ?_⟩ <;>
      simp [runCategories, inputTrace, types, processCats,
        getValidator, readField, hcq]
  · rcases hcp : val.params.safeParseAsync (nullishDefault r.params) with e1 | prp
    · have he : e1 = e := by
        simpa [firstThrow, categoryResult, getValidator, readField, hcq,
          hcp] using h
      subst he
      rcases prq with dq | isq <;>
        exact ⟨by simp [runCategories, types, processCats, getValidator,
            readField, writeField, setQuery, hcq, hcp],
          [(Category.body, nullishDefault (readField r Category.body))],
          by simp [inputTrace, types, processCats,
            getValidator, readField, writeField, setQuery, hcq, hcp]⟩
    · rcases hcb : val.body.safeParseAsync (nullishDefault r.body) with e1 | prb
      · have he : e1 = e := by
          simpa [firstThrow, categoryResult, getValidator, readField, hcq,
            hcp, hcb] using h
        subst he
        rcases prq with dq | isq <;> rcases prp with dp | isp <;>
          exact ⟨by simp [runCategories, types, processCats, getValidator,
              readField, writeField, setQuery, hcq, hcp, hcb],
            [],
            by simp [inputTrace, types, processCats,
              getValidator, readField, writeField, setQuery, hcq, hcp, hcb]⟩
      · exfalso
        simp [firstThrow, categoryResult, getValidator, readField, hcq, hcp,
          hcb] at h

theorem runCategories_eq (val : Validation) (r : Request)
    (h : firstThrow val r = none) :
    runCategories val r = Except.ok (finalRequest val r, aggIssues val r) := by
  have hr := processCats_run val r h
  simp [runCategories, hr]

theorem attemptTrace_full (val : Validation) (r : Request)
    (h : firstThrow val r = none) :
    attemptTrace val r = types := by
  have hr := processCats_run val r h
  unfold attemptTrace inputTrace
  rw [hr]
  rfl

theorem runHandler_eq (val : Validation) (r : Request)
    (h : firstThrow val r = none) :
    runHandler val r = Except.ok
      (if aggIssues val r = [] then
        HandlerResult.nextCalled (finalRequest val r)
       else
        HandlerResult.zodError (finalRequest val r) (aggIssues val r)) := by
  have hr := runCategories_eq val r h
  rcases hagg : aggIssues val r with _ | ⟨i, is⟩ <;>
    simp [runHandler, hr, hagg]

theorem runHandler_throw (val : Validation) (r : Request) (e : String)
    (h : firstThrow val r = some e) :
    runHandler val r = Except.error e := by
  have hr := (processCats_throw val r e h).1
  simp [runHandler, hr]

theorem readField_finalRequest (val : Validation) (r : Request)
    (t : Category) :
    readField (finalRequest val r) t =
      match categoryResult val r t with
      | Except.ok (ParseResult.success d) => d
      | _ => readField r t := by
  rcases hq : categoryResult val r Category.query with eq | dq | isq <;>
  rcases hp : categoryResult val r Category.params with ep | dp | isp <;>
  rcases hb : categoryResult val r Category.body with eb | db | isb <;>
  cases t <;>
  simp [finalRequest, applyCat, hq, hp, hb, readField, writeField, setQuery,
    getQuery]

theorem categoryIssues_of_failure (val : Validation) (r : Request)
    (t : Category) (iss : List Issue)
    (h : categoryResult val r t = Except.ok (ParseResult.failure iss)) :
    categoryIssues val r t = iss := by
  simp [categoryIssues, h]

theorem categoryIssues_of_success (val : Validation) (r : Request)
    (t : Category) (d : JSVal)
    (h : categoryResult val r t = Except.ok (ParseResult.success d)) :
    categoryIssues val r t = [] := by
  simp [categoryIssues, h]

theorem categoryIssues_ne_nil (val : Validation) (r : Request) (t : Category)
    (h : categoryIssues val r t ≠ []) :
    ∃ iss, categoryResult val r t = Except.ok (ParseResult.failure iss) ∧
      iss = categoryIssues val r t := by
  rcases hc : categoryResult val r t with e | d | iss <;>
    simp [categoryIssues, hc] at h ⊢

theorem aggIssues_decomp (val : Validation) (r : Request) (t : Category) :
    ∃ pre post, aggIssues val r = pre ++ categoryIssues val r t ++ post := by
  cases t
  · exact ⟨[], categoryIssues val r Category.params
      ++ categoryIssues val r Category.body, by simp [aggIssues]⟩
  · exact ⟨categoryIssues val r Category.query,
      categoryIssues val r Category.body, by simp [aggIssues]⟩
  · exact ⟨categoryIssues val r Category.query
      ++ categoryIssues val r Category.params, [], by simp [aggIssues]⟩

theorem inputTrace_pref (val : Validation) (r : Request) :
    ∃ rest, inputTrace val r ++ rest =
      types.map (fun c => (c, nullishDefault (readField r c))) := by
  rcases hf : firstThrow val r with _ | e
  · refine ⟨[], ?_⟩
    have hr := processCats_run val r hf
    unfold inputTrace
    rw [hr]
    simp [types]
  · exact (processCats_throw val r e hf).2

theorem inputTrace_mem (val : Validation) (r : Request) (t : Category)
    (v : JSVal) (h : (t, v) ∈ inputTrace val r) :
    v = nullishDefault (readField r t) := by
  obtain ⟨rest, hrest⟩ := inputTrace_pref val r
  have hmem : (t, v) ∈ types.map (fun c => (c, nullishDefault (readField r c))) := by
    rw [← hrest]
    exact List.mem_append_left _ h
  simp [types] at hmem
  rcases hmem with ⟨ht, hv⟩ | ⟨ht, hv⟩ | ⟨ht, hv⟩ <;> subst ht <;>
    simp [hv]

theorem attemptTrace_pref (val : Validation) (r : Request) :
    ∃ rest, attemptTrace val r ++ rest = types := by
  obtain ⟨rest, hrest⟩ := inputTrace_pref val r
  refine ⟨rest.map Prod.fst, ?_⟩
  have hmap := congrArg (List.map Prod.fst) hrest
  simpa [attemptTrace, types] using hmap

theorem strictFinish_of_unknown (unknown : List String)
    (frs : List (String × ParseResult)) (h : unknown ≠ []) :
    strictFinish unknown frs =
      ParseResult.failure (unrecognizedIssue :: fieldIssuesOf frs) := by
  rcases unknown with _ | ⟨u, us⟩
  · exact absurd rfl h
  · simp [strictFinish]

/-- C1 (counterexample): for the middleware built from the empty schema
set and a fresh empty request, the handler attempts the categories in the
order query, params, body — params is not attempted first, contradicting
the claimed fixed order params, query, body. -/
theorem C1_counterexample :
    attemptTrace emptyValidation emptyReq =
      [Category.query, Category.params, Category.body] ∧
    attemptTrace emptyValidation emptyReq ≠
      [Category.params, Category.query, Category.body] :=
  ⟨rfl, by decide⟩

/-- C1 (amended): for every invocation of the produced handler, the three
categories are validated in the fixed order query, then params, then
body: the sequence of attempt-parse invocations is always a prefix of
[query, params, body], and when no validator throws it is exactly that
sequence, each invocation completing before the next begins. -/
theorem C1_amended (val : Validation) (r : Request) :
    (∃ rest, attemptTrace val r ++ rest =
      [Category.query, Category.params, Category.body]) ∧
    (firstThrow val r = none →
      attemptTrace val r =
        [Category.query, Category.params, Category.body]) := by
  constructor
  · simpa [types] using attemptTrace_pref val r
  · intro h
    simpa [types] using attemptTrace_full val r h

theorem C1_amended_witness :
    firstThrow emptyValidation emptyReq = none ∧
    attemptTrace emptyValidation emptyReq =
      [Category.query, Category.params, Category.body] :=
  ⟨rfl, (C1_amended emptyValidation emptyReq).2 rfl⟩

/-- C2: assuming no validator throws for this request and that every
structured failure carries at least one issue (the validator library's
contract), the produced handler throws an Aggregated Validation Error
exactly when at least one category's attempt-parse returned a structured
failure; the thrown error carries the concatenation of every failing
category's issues, nothing dropped; and when no category failed the
handler instead calls next with no arguments. -/
theorem C2_thm (val : Validation) (r : Request)
    (hnt : firstThrow val r = none)
    (hne : ∀ t iss,
      categoryResult val r t = Except.ok (ParseResult.failure iss) →
      iss ≠ []) :
    ((∃ r2 iss2, runHandler val r =
        Except.ok (HandlerResult.zodError r2 iss2)) ↔
      ∃ t iss, categoryResult val r t =
        Except.ok (ParseResult.failure iss)) ∧
    (∀ r2 iss2, runHandler val r =
        Except.ok (HandlerResult.zodError r2 iss2) →
      iss2 = categoryIssues val r Category.query
        ++ categoryIssues val r Category.params
        ++ categoryIssues val r Category.body) ∧
    ((¬ ∃ t iss, categoryResult val r t =
        Except.ok (ParseResult.failure iss)) →
      runHandler val r =
        Except.ok (HandlerResult.nextCalled (finalRequest val r))) := by
  have hrh := runHandler_eq val r hnt
  rcases hagg : aggIssues val r with _ | ⟨i0, is0⟩
  · rw [hagg] at hrh
    simp only [if_pos rfl] at hrh
    have hcats : ∀ t, categoryIssues val r t = [] := by
      intro t
      obtain ⟨pre, post, hd⟩ := aggIssues_decomp val r t
      have hlen := congrArg List.length hd
      rw [hagg] at hlen
      simp [List.length_append] at hlen
      exact List.length_eq_zero.mp (by omega)
    have hnofail : ¬ ∃ t iss,
        categoryResult val r t = Except.ok (ParseResult.failure iss) := by
      rintro ⟨t, iss, hf⟩
      have h1 := categoryIssues_of_failure val r t iss hf
      rw [hcats t] at h1
      exact hne t iss hf h1.symm
    refine ⟨⟨?_, ?_⟩, ?_, fun _ => hrh⟩
    · rintro ⟨r2, iss2, heq⟩
      rw [hrh] at heq
      exact absurd (Except.ok.inj heq) (fun hh => HandlerResult.noConfusion hh)
    · intro hex
      exact absurd hex hnofail
    · intro r2 iss2 heq
      rw [hrh] at heq
      exact absurd (Except.ok.inj heq) (fun hh => HandlerResult.noConfusion hh)
  · rw [hagg] at hrh
    rw [if_neg (List.cons_ne_nil i0 is0)] at hrh
    have hex : ∃ t iss,
        categoryResult val r t = Except.ok (ParseResult.failure iss) := by
      by_cases h1 : categoryIssues val r Category.query = []
      · by_cases h2 : categoryIssues val r Category.params = []
        · by_cases h3 : categoryIssues val r Category.body = []
          · exfalso
            have hz : aggIssues val r = [] := by
              simp [aggIssues, h1, h2, h3]
            rw [hagg] at hz
            exact List.cons_ne_nil _ _ hz
          · obtain ⟨iss, hf, _⟩ := categoryIssues_ne_nil val r Category.body h3
            exact ⟨_, _, hf⟩
        · obtain ⟨iss, hf, _⟩ := categoryIssues_ne_nil val r Category.params h2
          exact ⟨_, _, hf⟩
      · obtain ⟨iss, hf, _⟩ := categoryIssues_ne_nil val r Category.query h1
        exact ⟨_, _, hf⟩
    refine ⟨⟨fun _ => hex, fun _ => ⟨_, _, hrh⟩⟩, ?_, ?_⟩
    · intro r2 iss2 heq
      rw [hrh] at heq
      have h2 := HandlerResult.zodError.inj (Except.ok.inj heq)
      rw [← h2.2, ← hagg]
      simp [aggIssues]
    · intro hno
      exact absurd hex hno

theorem C2_thm_witness :
    runHandler emptyValidation failReq =
      Except.ok (HandlerResult.zodError (finalRequest emptyValidation failReq)
        (categoryIssues emptyValidation failReq Category.query
          ++ categoryIssues emptyValidation failReq Category.params
          ++ categoryIssues emptyValidation failReq Category.body)) := by
  have hne : ∀ t iss, categoryResult emptyValidation failReq t =
      Except.ok (ParseResult.failure iss) → iss ≠ [] := by
    intro t iss h
    cases t
    · have h2 := ParseResult.failure.inj (Except.ok.inj h)
      rw [← h2]
      exact List.cons_ne_nil _ _
    · exact ParseResult.noConfusion (Except.ok.inj h)
    · exact ParseResult.noConfusion (Except.ok.inj h)
  have hc := C2_thm emptyValidation failReq rfl hne
  have hex : ∃ t iss, categoryResult emptyValidation failReq t =
      Except.ok (ParseResult.failure iss) :=
    ⟨Category.query, [unrecognizedIssue], rfl⟩
  obtain ⟨r2, iss2, heq⟩ := hc.1.mpr hex
  have hiss := hc.2.1 r2 iss2 heq
  rw [heq, hiss]
  have hr2 : r2 = finalRequest emptyValidation failReq := by
    have hrh := runHandler_eq emptyValidation failReq rfl
    rw [heq] at hrh
    rcases hagg : aggIssues emptyValidation failReq with _ | ⟨i0, is0⟩
    · rw [hagg] at hrh
      simp only [if_pos rfl] at hrh
      exact absurd (Except.ok.inj hrh)
        (fun hh => HandlerResult.noConfusion hh)
    · rw [hagg] at hrh
      rw [if_neg (List.cons_ne_nil i0 is0)] at hrh
      exact (HandlerResult.zodError.inj (Except.ok.inj hrh)).1
  rw [hr2]

/-- C3: normalization dispatches on the safeParseAsync capability test:
an entry passing isZodType is an opaque validator used verbatim; any
other entry (including an absent one) is compiled to the strict-object
validator over its field mapping (the empty mapping when absent), and
that validator rejects any object input containing a key not named in
the mapping; normalization is total — it has no error case and always
yields exactly three non-optional validators. -/
theorem C3_thm :
    (∀ e, isZodType e = true →
      ∃ v, e = some (SchemaEntry.zodType v) ∧ normalizeEntry e = v) ∧
    (∀ e, isZodType e = false →
      normalizeEntry e = strictObject (entryFields e)) ∧
    entryFields none = ([] : List (String × Validator)) ∧
    (∀ fs kvs k, k ∈ kvs.map Prod.fst → (∀ f ∈ fs, f.1 ≠ k) →
      ∀ pr, (strictObject fs).safeParseAsync (JSVal.obj kvs) =
          Except.ok pr →
        ∃ iss, pr = ParseResult.failure iss ∧ iss ≠ []) ∧
    (∀ s : Schemas, normalize s =
      ⟨normalizeEntry s.params, normalizeEntry s.query,
        normalizeEntry s.body⟩) := by
  refine ⟨?_, ?_, rfl, ?_, fun s => rfl⟩
  · intro e he
    rcases e with _ | v | fs
    · simp [isZodType] at he
    · exact ⟨v, rfl, rfl⟩
    · simp [isZodType] at he
  · intro e he
    rcases e with _ | v | fs
    · rfl
    · simp [isZodType] at he
    · rfl
  · intro fs kvs k hk hnot pr hok
    simp only [strictObject, strictObjectSafeParse] at hok
    split at hok
    · exact Except.noConfusion hok
    · have hkm : k ∈ unknownKeys fs kvs := by
        refine List.mem_filter.mpr ⟨hk, ?_⟩
        simp only [Option.isNone_iff_eq_none, List.find?_eq_none,
          decide_eq_true_eq]
        exact hnot
      rw [strictFinish_of_unknown _ _ (List.ne_nil_of_mem hkm)] at hok
      have h2 := Except.ok.inj hok
      exact ⟨_, h2.symm, List.cons_ne_nil _ _⟩

theorem C3_thm_witness :
    normalizeEntry none =
      strictObject (entryFields (none : Option SchemaEntry)) :=
  C3_thm.2.1 none rfl

/-- C4: when no validator throws, a category whose attempt-parse returned
a structured failure contributes every one of its issues to the running
aggregate, its Request Context field is left unmodified by the run, and
all three categories are still attempted — a failure never prevents the
other categories from being validated. -/
theorem C4_thm (val : Validation) (r : Request) (t : Category)
    (iss : List Issue)
    (hnt : firstThrow val r = none)
    (hf : categoryResult val r t = Except.ok (ParseResult.failure iss)) :
    runCategories val r =
      Except.ok (finalRequest val r, aggIssues val r) ∧
    (∃ pre post, aggIssues val r = pre ++ iss ++ post) ∧
    readField (finalRequest val r) t = readField r t ∧
    attemptTrace val r = [Category.query, Category.params, Category.body] := by
  refine ⟨runCategories_eq val r hnt, ?_, ?_, ?_⟩
  · obtain ⟨pre, post, hd⟩ := aggIssues_decomp val r t
    exact ⟨pre, post, by
      rw [hd, categoryIssues_of_failure val r t iss hf]⟩
  · rw [readField_finalRequest val r t, hf]
  · simpa [types] using attemptTrace_full val r hnt

theorem C4_thm_witness :
    runCategories emptyValidation failReq =
      Except.ok (finalRequest emptyValidation failReq,
        aggIssues emptyValidation failReq) ∧
    (∃ pre post, aggIssues emptyValidation failReq =
      pre ++ [unrecognizedIssue] ++ post) ∧
    readField (finalRequest emptyValidation failReq) Category.query =
      readField failReq Category.query ∧
    attemptTrace emptyValidation failReq =
      [Category.query, Category.params, Category.body] :=
  C4_thm emptyValidation failReq Category.query [unrecognizedIssue] rfl rfl

/-- C5: when no validator throws, some category fails with a non-empty
issue list and another category succeeds, the successful category's field
on the Request Context is overwritten with the validator's coerced output
and remains overwritten in the final request carried by the thrown
Aggregated Validation Error — successful mutations are not rolled back. -/
theorem C5_thm (val : Validation) (r : Request) (t tf : Category)
    (d : JSVal) (issf : List Issue)
    (hnt : firstThrow val r = none)
    (hs : categoryResult val r t = Except.ok (ParseResult.success d))
    (hf : categoryResult val r tf = Except.ok (ParseResult.failure issf))
    (hissf : issf ≠ []) :
    runHandler val r = Except.ok
      (HandlerResult.zodError (finalRequest val r) (aggIssues val r)) ∧
    readField (finalRequest val r) t = d := by
  constructor
  · have hrh := runHandler_eq val r hnt
    have hagg : aggIssues val r ≠ [] := by
      obtain ⟨pre, post, hd⟩ := aggIssues_decomp val r tf
      rw [hd, categoryIssues_of_failure val r tf issf hf]
      intro hc
      simp only [List.append_eq_nil] at hc
      exact hissf hc.1.2
    rw [hrh, if_neg hagg]
  · rw [readField_finalRequest val r t, hs]

theorem C5_thm_witness :
    runHandler emptyValidation failReq = Except.ok
      (HandlerResult.zodError (finalRequest emptyValidation failReq)
        (aggIssues emptyValidation failReq)) ∧
    readField (finalRequest emptyValidation failReq) Category.params =
      JSVal.obj [] :=
  C5_thm emptyValidation failReq Category.params Category.query
    (JSVal.obj []) [unrecognizedIssue] rfl rfl rfl
    (List.cons_ne_nil _ _)

/-- C6 (counterexample): for a request whose body field holds null — a
defined value distinct from undefined — the body validator is invoked
with the empty object rather than with the field's current value null,
contradicting the claim that the current value is passed whenever the
field is defined. -/
theorem C6_counterexample :
    readField nullBodyReq Category.body = JSVal.null ∧
    JSVal.null ≠ JSVal.undefined ∧
    (Category.body, JSVal.obj []) ∈ inputTrace emptyValidation nullBodyReq ∧
    (Category.body, JSVal.null) ∉ inputTrace emptyValidation nullBodyReq ∧
    JSVal.obj [] ≠ JSVal.null := by
  have htr : inputTrace emptyValidation nullBodyReq =
      [(Category.query, JSVal.obj []), (Category.params, JSVal.obj []),
       (Category.body, JSVal.obj [])] := rfl
  refine ⟨rfl, fun hc => JSVal.noConfusion hc, ?_, ?_, fun hc => JSVal.noConfusion hc⟩
  · rw [htr]
    exact List.Mem.tail _ (List.Mem.tail _ (List.Mem.head _))
  · rw [htr]
    simp

/-- C6 (amended): every attempt-parse invocation the handler performs
receives the nullish-coalesced value of the category's field on the
Request Context: the field's current value when it is neither undefined
nor null, and the empty object when the field is absent, undefined or
null — neither undefined nor null is ever passed to a validator. -/
theorem C6_amended (val : Validation) (r : Request) (t : Category)
    (v : JSVal) (h : (t, v) ∈ inputTrace val r) :
    (readField r t ≠ JSVal.undefined → readField r t ≠ JSVal.null →
      v = readField r t) ∧
    (readField r t = JSVal.undefined ∨ readField r t = JSVal.null →
      v = JSVal.obj []) ∧
    v ≠ JSVal.undefined ∧ v ≠ JSVal.null := by
  have hv := inputTrace_mem val r t v h
  subst hv
  rcases hfld : readField r t with _ | _ | b | n | s | l <;>
    simp [nullishDefault]

theorem C6_amended_witness :
    (readField nullBodyReq Category.body ≠ JSVal.undefined →
      readField nullBodyReq Category.body ≠ JSVal.null →
      JSVal.obj [] = readField nullBodyReq Category.body) ∧
    (readField nullBodyReq Category.body = JSVal.undefined ∨
      readField nullBodyReq Category.body = JSVal.null →
      JSVal.obj [] = JSVal.obj []) ∧
    JSVal.obj ([] : List (String × JSVal)) ≠ JSVal.undefined ∧
    JSVal.obj ([] : List (String × JSVal)) ≠ JSVal.null :=
  C6_amended emptyValidation nullBodyReq Category.body (JSVal.obj [])
    (List.Mem.tail _ (List.Mem.tail _ (List.Mem.head _)))

/-- C7: after the query patch, the setter always writes the shadow slot
and a read returns the shadow value once set via the setter, otherwise
the original derivation's value; consequently, when the handler
successfully validates the query category of a request, reading query on
the resulting request returns the coerced output, while reading query on
an unrelated request whose shadow slot was never set returns the original
derived value unchanged. -/
theorem C7_thm (val : Validation) (r rq : Request) (d : JSVal)
    (_hnt : firstThrow val r = none)
    (hq : categoryResult val r Category.query =
      Except.ok (ParseResult.success d))
    (hun : rq.queryShadow = none) :
    (∀ (r2 : Request) (v : JSVal), getQuery (setQuery r2 v) = v) ∧
    getQuery (finalRequest val r) = d ∧
    getQuery rq = rq.queryOrig := by
  refine ⟨fun r2 v => rfl, ?_, ?_⟩
  · have hrf := readField_finalRequest val r Category.query
    rw [hq] at hrf
    exact hrf
  · simp [getQuery, hun]

theorem C7_thm_witness :
    (∀ (r2 : Request) (v : JSVal), getQuery (setQuery r2 v) = v) ∧
    getQuery (finalRequest emptyValidation emptyReq) = JSVal.obj [] ∧
    getQuery failReq = failReq.queryOrig :=
  C7_thm emptyValidation emptyReq failReq (JSVal.obj []) rfl rfl rfl

/-- C8: when some category's attempt-parse throws an exception rather
than returning a structured result, the produced handler propagates the
first such exception unmodified: the handler's outcome is exactly that
exception, so no Aggregated Validation Error is raised and the proceed
callback is not invoked. -/
theorem C8_thm (val : Validation) (r : Request) (e : String)
    (h : firstThrow val r = some e) :
    runHandler val r = Except.error e ∧
    ∀ res, runHandler val r ≠ Except.ok res := by
  have h1 := runHandler_throw val r e h
  exact ⟨h1, fun res heq => Except.noConfusion (h1.symm.trans heq)⟩

theorem C8_thm_witness :
    runHandler throwingValidation emptyReq = Except.error "boom" :=
  (C8_thm throwingValidation emptyReq "boom" rfl).1

/-- C9: the produced handler is a pure function of the schema set and the
request: two structurally identical fresh requests yield identical
outcomes — the same success or failure, the same issue list and the same
coerced request fields. -/
theorem C9_thm (s : Schemas) (r1 r2 : Request) (h : r1 = r2) :
    validate s r1 = validate s r2 := by
  rw [h]

theorem C9_thm_witness :
    validate {} emptyReq = validate {} emptyReq :=
  C9_thm {} emptyReq emptyReq rfl

/-- C10: once the query setter has stored any value in the shadow slot —
undefined included — every read of the query field returns exactly that
value; the fallback to the original derivation is decided by the presence
of the shadow slot, not by the truthiness or definedness of the stored
value. -/
theorem C10_thm (r : Request) (w : JSVal) (hset : r.queryShadow = some w) :
    (∀ (r2 : Request) (v : JSVal), getQuery (setQuery r2 v) = v) ∧
    getQuery (setQuery r JSVal.undefined) = JSVal.undefined ∧
    getQuery r = w ∧
    (∀ r2 : Request, r2.queryShadow = none → getQuery r2 = r2.queryOrig) := by
  refine ⟨fun r2 v => rfl, rfl, ?_, fun r2 h2 => by simp [getQuery, h2]⟩
  simp [getQuery, hset]

theorem C10_thm_witness :
    (∀ (r2 : Request) (v : JSVal), getQuery (setQuery r2 v) = v) ∧
    getQuery (setQuery shadowUndefReq JSVal.undefined) = JSVal.undefined ∧
    getQuery shadowUndefReq = JSVal.undefined ∧
    (∀ r2 : Request, r2.queryShadow = none → getQuery r2 = r2.queryOrig) :=
  C10_thm shadowUndefReq JSVal.undefined rfl

end EZS
